import Mathlib

/-!
# Verification of the XBioScraper partition / worker-orchestration core

Shallow embedding of the job-partitioning and worker-orchestration subsystem
of XBioScraper (`main.py` and `src/worker.py`).  Records are kept abstract
(`α`) where the code is generic over them; the journalist record structure is
modelled where the worker reads a named field.  `multiprocessing.Queue` is
modelled as a `List` (FIFO: `put` appends at the tail, `get` removes the
head); console output is modelled as a list of structured progress lines.
Python's `math.ceil(a / b)` on non-negative integers is modelled as exact
integer ceiling division (the float detour is exact at the data sizes in
scope), and a Python `ZeroDivisionError` is modelled as an `Except.error`.
-/

namespace XBioScraper

/-- `main.py` lines 20-35: the fixed 14-entry ANSI color palette `COLORS`. -/
def COLORS : List String :=
  [ "\x1b[92m"  -- Green
  , "\x1b[93m"  -- Yellow
  , "\x1b[94m"  -- Blue
  , "\x1b[95m"  -- Magenta
  , "\x1b[96m"  -- Cyan
  , "\x1b[97m"  -- White
  , "\x1b[31m"  -- Dark Red
  , "\x1b[32m"  -- Dark Green
  , "\x1b[33m"  -- Dark Yellow
  , "\x1b[34m"  -- Dark Blue
  , "\x1b[35m"  -- Dark Magenta
  , "\x1b[36m"  -- Dark Cyan
  , "\x1b[37m"  -- Light Gray
  , "\x1b[90m"  -- Dark Gray
  ]

/-- One journalist record: the four named string fields written by
`retrieve_info_from_database` (`main.py` lines 49-54) and read back as a dict
by `load_journalists` (`main.py` lines 106-115). -/
structure Journalist where
  name : String
  id : String
  twitter : String
  curr_bio : String
deriving DecidableEq, Repr

/-- Integer ceiling division: models `ceil(a / b)` (`main.py` line 156,
`from math import ceil`) for non-negative operands and positive divisor. -/
def ceilDiv (a b : Nat) : Nat := (a + b - 1) / b

/-- One spawned worker process, as assembled at the `start_new_process` call
sites (`main.py` lines 164 and 168): the argument tuple
`(len(processes), VERBOSE_MODE, cur_queue)` handed to `worker_process`. -/
structure SpawnedWorker (α : Type) where
  process_id : Nat
  verbose : Bool
  queue : List α
deriving DecidableEq, Repr

/-- `main.py` lines 123-127 `start_new_process`: starts a process and appends
it to `processes`.  The ordinal in the argument tuple is built at the call
sites as `len(processes)`, the length of the list before the append. -/
def start_new_process (v : Bool) (q : List α) (processes : List (SpawnedWorker α)) :
    List (SpawnedWorker α) :=
  processes ++ [⟨processes.length, v, q⟩]

/-- `main.py` lines 157-169: the partition loop.  `curIndex` is the value
Python's `cur_index` holds for the head of the remaining list (the source
initialises `cur_index = -1` and increments at the top of each iteration, so
the first record is seen with `cur_index = 0`).  Per iteration: skip while
`cur_index < start`; `break` once `cur_index >= end`; otherwise `put` the
record on `cur_queue` and, when `cur_queue.qsize() >= num_of_jobs_each_process`
(`B` here), spawn a worker for the queue and reset it.  After the loop, the
leftover queue is handed off when non-empty (`main.py` lines 167-169). -/
def partitionLoop (start e B : Nat) (v : Bool) :
    List α → Nat → List α → List (SpawnedWorker α) → List (SpawnedWorker α)
  | [], _, curQueue, processes =>
      if curQueue.length ≠ 0 then start_new_process v curQueue processes else processes
  | j :: rest, curIndex, curQueue, processes =>
      if curIndex < start then
        partitionLoop start e B v rest (curIndex + 1) curQueue processes
      else if e ≤ curIndex then
        if curQueue.length ≠ 0 then start_new_process v curQueue processes else processes
      else
        if B ≤ (curQueue ++ [j]).length then
          partitionLoop start e B v rest (curIndex + 1) []
            (start_new_process v (curQueue ++ [j]) processes)
        else
          partitionLoop start e B v rest (curIndex + 1) (curQueue ++ [j]) processes

/-- `main.py` line 154: `start, end = min(start, max_index), min(end, max_index)`. -/
def clampRange (s e N : Nat) : Nat × Nat := (min s N, min e N)

/-- `main.py` lines 152-169: clamp the requested window against
`count_journalists()` (the length of the record list), compute
`num_of_jobs_each_process = ceil(num_of_jobs / args.np)` (a Python
`ZeroDivisionError` when `args.np` is `0`), then run the partition loop.
The result is the `processes` list in spawn order. -/
def runPartition (js : List α) (s e np : Nat) (v : Bool) :
    Except String (List (SpawnedWorker α)) :=
  let max_index := js.length
  let c := clampRange s e max_index
  let num_of_jobs := c.2 - c.1
  if np = 0 then
    .error "ZeroDivisionError"
  else
    .ok (partitionLoop c.1 c.2 (ceilDiv num_of_jobs np) v js 0 [] [])

/-- `argparse` default for `--range` (`main.py` line 140): `(0, 9999999)`. -/
def RANGE_DEFAULT : Nat × Nat := (0, 9999999)

/-- Python `str.split(sep)` for a one-character separator, over the string's
character sequence: splits at every occurrence of `c`, keeping empty parts
(`"5-".split('-') == ['5', '']`). -/
def splitOnChar (c : Char) : List Char → List (List Char)
  | [] => [[]]
  | x :: xs =>
      let r := splitOnChar c xs
      if x = c then [] :: r
      else
        match r with
        | [] => [[x]]
        | h :: t => (x :: h) :: t

/-- Decimal value of a digit string. -/
def digitsToNat (l : List Char) : Nat :=
  l.foldl (fun a c => a * 10 + (c.toNat - 48)) 0

/-- Strips leading and trailing whitespace, as Python `int` does before
converting. -/
def stripSpaces (l : List Char) : List Char :=
  ((l.dropWhile Char.isWhitespace).reverse.dropWhile Char.isWhitespace).reverse

/-- Python `int(s)` on a string that cannot contain a `-` character (the
parts of `value.split('-')` never do): optional surrounding whitespace, an
optional `+` sign, then one or more decimal digits; anything else raises
`ValueError` (modelled as `none`).  Numeric-literal underscores are not
modelled. -/
def pyInt (l : List Char) : Option Int :=
  let t := stripSpaces l
  let t2 := match t with
    | '+' :: rest => rest
    | _ => t
  if t2 ≠ [] ∧ t2.all Char.isDigit then some (Int.ofNat (digitsToNat t2)) else none

/-- `main.py` lines 78-89 `index_range`: split the raw string on `-`, convert
each part with `int` (any `ValueError` — a non-numeric part or a part count
other than two — is caught and re-raised as the format error), and reject
`start > end` with the range error (an `argparse.ArgumentTypeError`, which is
not a `ValueError` and so escapes the `except` clause).  The raw argument
string is modelled by its character sequence. -/
def index_range (value : List Char) : Except String (Int × Int) :=
  match (splitOnChar '-' value).map pyInt with
  | [some s, some e] =>
      if s > e then
        .error "Invalid range: start should be less than or equal to end."
      else
        .ok (s, e)
  | _ => .error "Invalid range format. Should be start-end."

/-- `argparse` applies `index_range` to the raw `--range` string while parsing
the command line (`main.py` line 140), before the partition stage at lines
152-169 runs: a validation failure aborts the run with no partitioning and no
record processing.  A successful parse always yields non-negative values
(split on `-` leaves no sign inside a part), so the ok case feeds
`Int.toNat` into the partition stage. -/
def parseRangeAndPartition (value : List Char) (js : List α) (np : Nat) (v : Bool) :
    Except String (List (SpawnedWorker α)) :=
  match index_range value with
  | .error msg => .error msg
  | .ok (s, e) => runPartition js s.toNat e.toNat np v

/-- Python float `/` with an integer divisor: raises `ZeroDivisionError` when
the divisor is zero.  The elapsed time is modelled as a rational. -/
def pyDivByNat (a : ℚ) (b : Nat) : Except String ℚ :=
  if b = 0 then .error "ZeroDivisionError" else .ok (a / b)

/-- `main.py` line 178: the summary's `Avg Time` value
`elapsed_time/num_of_jobs`, computed unconditionally inside the f-string. -/
def summaryAvg (elapsed : ℚ) (num_of_jobs : Nat) : Except String ℚ :=
  pyDivByNat elapsed num_of_jobs

/-- One progress line emitted by `Worker.colored_print` during `Worker.start`
(`src/worker.py` line 20): the `process_id` prefix and the
`({count}/{total}) Processing {name}...` payload, kept structured. -/
structure ProgressLine where
  process_id : Nat
  count : Nat
  total : Nat
  name : String
deriving DecidableEq, Repr

/-- `src/worker.py` lines 3-10 `Worker.__init__`: `total` is the queue's size
at construction time. -/
structure Worker where
  process_id : Nat
  queue : List Journalist
  verbose : Bool
  printclr : String
  end_color : String
  total : Nat
deriving DecidableEq, Repr

/-- `Worker(process_id, queue, verbose, printclr)` (`src/worker.py` line 4). -/
def Worker.init (process_id : Nat) (queue : List Journalist) (verbose : Bool)
    (printclr : String) : Worker :=
  ⟨process_id, queue, verbose, printclr, "\x1b[0m", queue.length⟩

/-- `main.py` lines 118-120 `worker_process`: builds the worker with
`printclr=COLORS[process_id%len(COLORS)]` and starts it. -/
def worker_process (process_id : Nat) (verbose : Bool) (queue : List Journalist) :
    Worker :=
  Worker.init process_id queue verbose (COLORS.getD (process_id % COLORS.length) "")

/-- The `while not self.queue.empty()` loop of `Worker.start`
(`src/worker.py` lines 17-20).  `count` is threaded through unchanged because
the source initialises `count = 1` and the loop body contains no update to
it. -/
def drainLoop (process_id total count : Nat) : List Journalist → List ProgressLine
  | [] => []
  | j :: rest => ⟨process_id, count, total, j.name⟩ :: drainLoop process_id total count rest

/-- `src/worker.py` lines 15-20 `Worker.start`: drain the queue, emitting one
progress line per record (the initial "Process started" banner is not a
progress line and is not modelled). -/
def Worker.start (w : Worker) : List ProgressLine :=
  drainLoop w.process_id w.total 1 w.queue

/-! ## Specification-side functions used by the proofs -/

/-- The partition loop restricted to the windowed records: `fillLoop B v l q ps`
is `partitionLoop` once the skip phase is over and exactly the records of
`l` remain to be pushed (bridge proved below). -/
def fillLoop (B : Nat) (v : Bool) :
    List α → List α → List (SpawnedWorker α) → List (SpawnedWorker α)
  | [], q, ps => if q.length ≠ 0 then start_new_process v q ps else ps
  | j :: rest, q, ps =>
      if B ≤ (q ++ [j]).length then
        fillLoop B v rest [] (start_new_process v (q ++ [j]) ps)
      else
        fillLoop B v rest (q ++ [j]) ps

/-- Splits a list into consecutive chunks of size `B` (the last chunk may be
shorter, and is never empty). -/
def chunksOf (B : Nat) (l : List α) : List (List α) :=
  match l with
  | [] => []
  | j :: rest => (j :: rest.take (B - 1)) :: chunksOf B (rest.drop (B - 1))
termination_by l.length
decreasing_by simp; omega

/-- Turns a list of queues into spawned workers with consecutive ordinals
starting at `off`. -/
def spawnAll (v : Bool) (off : Nat) : List (List α) → List (SpawnedWorker α)
  | [] => []
  | q :: rest => ⟨off, v, q⟩ :: spawnAll v (off + 1) rest

/-! ## Basic lemmas about the specification-side functions -/

theorem chunksOf_nil (B : Nat) : chunksOf B ([] : List α) = [] := by
  rw [chunksOf]

theorem chunksOf_cons (B : Nat) (j : α) (rest : List α) :
    chunksOf B (j :: rest) =
      (j :: rest.take (B - 1)) :: chunksOf B (rest.drop (B - 1)) := by
  rw [chunksOf]

theorem chunksOf_eq_nil_iff (B : Nat) (l : List α) : chunksOf B l = [] ↔ l = [] := by
  cases l with
  | nil => simp [chunksOf_nil]
  | cons j rest => simp [chunksOf_cons]

/-- A full prefix of size `B` is split off as the first chunk. -/
theorem chunksOf_full_prefix (B : Nat) (hB : 1 ≤ B) (q1 rest : List α)
    (hq : q1.length = B) :
    chunksOf B (q1 ++ rest) = q1 :: chunksOf B rest := by
  cases q1 with
  | nil => simp at hq; omega
  | cons x q1' =>
    rw [List.cons_append, chunksOf_cons]
    have h1 : q1'.length = B - 1 := by simp at hq; omega
    rw [List.take_left' h1, List.drop_left' h1]

theorem spawnAll_length (v : Bool) :
    ∀ (off : Nat) (qs : List (List α)), (spawnAll v off qs).length = qs.length := by
  intro off qs
  induction qs generalizing off with
  | nil => rfl
  | cons q rest ih => simp [spawnAll, ih]

theorem spawnAll_map_queue (v : Bool) :
    ∀ (off : Nat) (qs : List (List α)),
      (spawnAll v off qs).map SpawnedWorker.queue = qs := by
  intro off qs
  induction qs generalizing off with
  | nil => rfl
  | cons q rest ih => simp [spawnAll, ih]

theorem spawnAll_get_process_id (v : Bool) :
    ∀ (qs : List (List α)) (off i : Nat) (h : i < (spawnAll v off qs).length),
      ((spawnAll v off qs).get ⟨i, h⟩).process_id = off + i := by
  intro qs
  induction qs with
  | nil => intro off i h; simp [spawnAll] at h
  | cons q rest ih =>
    intro off i h
    cases i with
    | zero => rfl
    | succ n =>
      have h' : n < (spawnAll v (off + 1) rest).length := by
        simpa [spawnAll] using h
      calc ((spawnAll v off (q :: rest)).get ⟨n + 1, h⟩).process_id
          = ((spawnAll v (off + 1) rest).get ⟨n, h'⟩).process_id := rfl
        _ = (off + 1) + n := ih (off + 1) n h'
        _ = off + (n + 1) := by omega

/-- `spawnAll` appended to an accumulator, shifted form used in the bridge. -/
theorem spawnAll_cons_shift (v : Bool) (off : Nat) (q : List α) (qs : List (List α)) :
    spawnAll v off (q :: qs) = ⟨off, v, q⟩ :: spawnAll v (off + 1) qs := rfl

/-! ## Bridge: the partition loop computes `spawnAll` of `chunksOf` -/

/-- `fillLoop` chunks `q ++ l` into batches of size `B` and spawns them with
consecutive ordinals, provided the open queue is not already full. -/
theorem fillLoop_eq (B : Nat) (v : Bool) :
    ∀ (l q : List α) (ps : List (SpawnedWorker α)), 1 ≤ B → q.length < B →
      fillLoop B v l q ps = ps ++ spawnAll v ps.length (chunksOf B (q ++ l)) := by
  intro l
  induction l with
  | nil =>
    intro q ps hB hq
    cases q with
    | nil => simp [fillLoop, chunksOf_nil, spawnAll]
    | cons x q0 =>
      have h1 : q0.take (B - 1) = q0 := List.take_of_length_le (by simp at hq; omega)
      have h2 : q0.drop (B - 1) = [] := List.drop_eq_nil_of_le (by simp at hq; omega)
      simp only [fillLoop, List.append_nil, chunksOf_cons, h1, h2, chunksOf_nil]
      simp [start_new_process, spawnAll]
  | cons j rest ih =>
    intro q ps hB hq
    by_cases hfull : B ≤ (q ++ [j]).length
    · have hlen : (q ++ [j]).length = B := by simp at hfull ⊢; omega
      simp only [fillLoop, if_pos hfull]
      rw [ih [] _ hB (by simpa using hB)]
      have hsplit : q ++ j :: rest = (q ++ [j]) ++ rest := by simp
      rw [hsplit, chunksOf_full_prefix B hB _ _ hlen]
      simp [start_new_process, spawnAll_cons_shift, List.append_assoc]
    · simp only [fillLoop, if_neg hfull]
      rw [ih (q ++ [j]) _ hB (by simp at hfull ⊢; omega)]
      have hsplit : (q ++ [j]) ++ rest = q ++ j :: rest := by simp
      rw [hsplit]

/-- Once `cur_index` has reached `start`, the partition loop is `fillLoop`
over the at most `e - cur_index` next records. -/
theorem partitionLoop_of_start_le (start e B : Nat) (v : Bool) :
    ∀ (js : List α) (c : Nat) (q : List α) (ps : List (SpawnedWorker α)), start ≤ c →
      partitionLoop start e B v js c q ps = fillLoop B v (js.take (e - c)) q ps := by
  intro js
  induction js with
  | nil => intro c q ps hc; simp [partitionLoop, fillLoop]
  | cons j rest ih =>
    intro c q ps hc
    rw [partitionLoop, if_neg (by omega : ¬ c < start)]
    by_cases hce : e ≤ c
    · rw [if_pos hce]
      have h0 : e - c = 0 := by omega
      rw [h0, List.take_zero]
      simp [fillLoop]
    · rw [if_neg hce]
      have he : e - c = (e - (c + 1)) + 1 := by omega
      rw [he, List.take_succ_cons]
      by_cases hfull : B ≤ (q ++ [j]).length
      · rw [if_pos hfull, ih _ _ _ (by omega)]
        simp only [fillLoop, if_pos hfull]
      · rw [if_neg hfull, ih _ _ _ (by omega)]
        simp only [fillLoop, if_neg hfull]

/-- The skip phase: while `cur_index < start` records are dropped. -/
theorem partitionLoop_skip (start e B : Nat) (v : Bool) :
    ∀ (js : List α) (c : Nat) (q : List α) (ps : List (SpawnedWorker α)), c ≤ start →
      partitionLoop start e B v js c q ps =
        fillLoop B v ((js.drop (start - c)).take (e - start)) q ps := by
  intro js
  induction js with
  | nil => intro c q ps hc; simp [partitionLoop, fillLoop]
  | cons j rest ih =>
    intro c q ps hc
    by_cases hcs : c < start
    · rw [partitionLoop, if_pos hcs, ih _ _ _ (by omega)]
      have hd : start - c = (start - (c + 1)) + 1 := by omega
      rw [hd, List.drop_succ_cons]
    · have hc' : c = start := by omega
      rw [hc', partitionLoop_of_start_le _ _ _ _ _ _ _ _ (le_refl _)]
      rw [Nat.sub_self, List.drop_zero]

/-- `ceilDiv` of a positive numerator by a positive divisor is positive. -/
theorem ceilDiv_pos (L np : Nat) (hL : 1 ≤ L) (hnp : 1 ≤ np) : 1 ≤ ceilDiv L np := by
  unfold ceilDiv
  rw [Nat.le_div_iff_mul_le (by omega)]
  omega

/-- Full characterisation of the partition stage for a positive worker count:
it spawns, with consecutive ordinals from `0`, the size-`B` chunks of the
clamped window of the record list, where `B = ceilDiv window_length np`. -/
theorem runPartition_eq_ok (js : List α) (s e np : Nat) (v : Bool) (hnp : 1 ≤ np) :
    runPartition js s e np v =
      .ok (spawnAll v 0 (chunksOf (ceilDiv (min e js.length - min s js.length) np)
            ((js.drop (min s js.length)).take (min e js.length - min s js.length)))) := by
  unfold runPartition clampRange
  rw [if_neg (by omega : ¬ np = 0)]
  congr 1
  rw [partitionLoop_skip _ _ _ _ _ _ _ _ (Nat.zero_le _), Nat.sub_zero]
  by_cases hL : min e js.length - min s js.length = 0
  · rw [hL, List.take_zero]
    simp [fillLoop, chunksOf_nil, spawnAll]
  · have hB : 1 ≤ ceilDiv (min e js.length - min s js.length) np :=
      ceilDiv_pos _ _ (by omega) hnp
    rw [fillLoop_eq _ _ _ _ _ hB (by simpa using hB)]
    simp

/-! ## Properties of `chunksOf` and `ceilDiv` -/

theorem ceilDiv_zero_left (B : Nat) (hB : 1 ≤ B) : ceilDiv 0 B = 0 := by
  unfold ceilDiv
  exact Nat.div_eq_of_lt (by omega)

/-- Peeling one full chunk off the numerator. -/
theorem ceilDiv_sub_step (m B : Nat) (hB : 1 ≤ B) (hm : 1 ≤ m) :
    ceilDiv m B = ceilDiv (m - B) B + 1 := by
  unfold ceilDiv
  by_cases hmb : B ≤ m
  · have h1 : m + B - 1 = (m - B + B - 1) + B := by omega
    rw [h1, Nat.add_div_right _ (by omega)]
  · have h0 : m - B = 0 := by omega
    rw [h0]
    have hz : (0 + B - 1) / B = 0 := Nat.div_eq_of_lt (by omega)
    rw [hz]
    have hge : 1 ≤ (m + B - 1) / B := (Nat.le_div_iff_mul_le (by omega)).mpr (by omega)
    have hlt : (m + B - 1) / B < 2 := (Nat.div_lt_iff_lt_mul (by omega)).mpr (by omega)
    omega

theorem le_mul_ceilDiv (L W : Nat) (hW : 1 ≤ W) : L ≤ W * ceilDiv L W := by
  unfold ceilDiv
  have h1 := Nat.div_add_mod (L + W - 1) W
  have h2 : (L + W - 1) % W < W := Nat.mod_lt _ (by omega)
  omega

theorem ceilDiv_le_of_le_mul (L B W : Nat) (hB : 1 ≤ B) (h : L ≤ W * B) :
    ceilDiv L B ≤ W := by
  unfold ceilDiv
  have h2 : (L + B - 1) / B < W + 1 := by
    rw [Nat.div_lt_iff_lt_mul (by omega)]
    have h3 : (W + 1) * B = W * B + B := by ring
    omega
  omega

theorem chunksOf_flatten_bounded (B : Nat) :
    ∀ (n : Nat) (l : List α), l.length ≤ n → (chunksOf B l).flatten = l := by
  intro n
  induction n with
  | zero =>
    intro l hl
    have h0 : l = [] := List.eq_nil_of_length_eq_zero (by omega)
    subst h0
    simp [chunksOf_nil]
  | succ n ih =>
    intro l hl
    cases l with
    | nil => simp [chunksOf_nil]
    | cons j rest =>
      rw [chunksOf_cons, List.flatten_cons,
        ih _ (by simp [List.length_drop] at hl ⊢; omega)]
      rw [List.cons_append, List.take_append_drop]

/-- Concatenating the chunks gives back the original list. -/
theorem chunksOf_flatten (B : Nat) (l : List α) :
    (chunksOf B l).flatten = l :=
  chunksOf_flatten_bounded B l.length l (le_refl _)

theorem chunksOf_length_bounded (B : Nat) (hB : 1 ≤ B) :
    ∀ (n : Nat) (l : List α), l.length ≤ n →
      (chunksOf B l).length = ceilDiv l.length B := by
  intro n
  induction n with
  | zero =>
    intro l hl
    have h0 : l = [] := List.eq_nil_of_length_eq_zero (by omega)
    subst h0
    simp [chunksOf_nil, ceilDiv_zero_left B hB]
  | succ n ih =>
    intro l hl
    cases l with
    | nil => simp [chunksOf_nil, ceilDiv_zero_left B hB]
    | cons j rest =>
      rw [chunksOf_cons]
      have harg : (rest.drop (B - 1)).length = rest.length + 1 - B := by
        simp [List.length_drop]
        omega
      simp only [List.length_cons]
      rw [ih _ (by simp [List.length_drop] at hl ⊢; omega), harg,
        ceilDiv_sub_step (rest.length + 1) B hB (by omega)]

/-- The number of chunks is the ceiling of length over chunk size. -/
theorem chunksOf_length (B : Nat) (hB : 1 ≤ B) (l : List α) :
    (chunksOf B l).length = ceilDiv l.length B :=
  chunksOf_length_bounded B hB l.length l (le_refl _)

theorem chunksOf_ne_nil_bounded (B : Nat) :
    ∀ (n : Nat) (l : List α), l.length ≤ n → ∀ c ∈ chunksOf B l, c ≠ [] := by
  intro n
  induction n with
  | zero =>
    intro l hl c hc
    have h0 : l = [] := List.eq_nil_of_length_eq_zero (by omega)
    subst h0
    simp [chunksOf_nil] at hc
  | succ n ih =>
    intro l hl c hc
    cases l with
    | nil => simp [chunksOf_nil] at hc
    | cons j rest =>
      rw [chunksOf_cons] at hc
      rcases List.mem_cons.mp hc with h | h
      · subst h; simp
      · exact ih _ (by simp [List.length_drop] at hl ⊢; omega) c h

/-- Every produced chunk is non-empty. -/
theorem chunksOf_ne_nil (B : Nat) (l : List α) : ∀ c ∈ chunksOf B l, c ≠ [] :=
  chunksOf_ne_nil_bounded B l.length l (le_refl _)

theorem chunksOf_getElem?_length_bounded (B : Nat) (hB : 1 ≤ B) :
    ∀ (n : Nat) (l : List α), l.length ≤ n →
      ∀ (i : Nat), i + 1 < (chunksOf B l).length →
        ∀ c, (chunksOf B l)[i]? = some c → c.length = B := by
  intro n
  induction n with
  | zero =>
    intro l hl i hi c hc
    have h0 : l = [] := List.eq_nil_of_length_eq_zero (by omega)
    subst h0
    simp [chunksOf_nil] at hi
  | succ n ih =>
    intro l hl i hi c hc
    cases l with
    | nil => simp [chunksOf_nil] at hi
    | cons j rest =>
      rw [chunksOf_cons] at hi hc
      cases i with
      | zero =>
        rw [List.getElem?_cons_zero] at hc
        obtain rfl : c = j :: rest.take (B - 1) := by
          simpa using hc.symm
        have hne : rest.drop (B - 1) ≠ [] := by
          intro hnil
          rw [hnil, chunksOf_nil] at hi
          simp at hi
        have hlen : B - 1 ≤ rest.length := by
          by_contra hcon
          exact hne (List.drop_eq_nil_of_le (by omega))
        simp [List.length_take]
        omega
      | succ m =>
        rw [List.getElem?_cons_succ] at hc
        have hi' : m + 1 < (chunksOf B (rest.drop (B - 1))).length := by
          simpa using hi
        exact ih _ (by simp [List.length_drop] at hl ⊢; omega) m hi' c hc

/-- Every chunk except possibly the last has length exactly `B`. -/
theorem chunksOf_getElem?_length (B : Nat) (hB : 1 ≤ B) (l : List α)
    (i : Nat) (hi : i + 1 < (chunksOf B l).length)
    (c : List α) (hc : (chunksOf B l)[i]? = some c) : c.length = B :=
  chunksOf_getElem?_length_bounded B hB l.length l (le_refl _) i hi c hc

/-! ## Claim theorems -/

/-- C1: For every non-empty clamped window and every requested worker count
np ≥ 1, the partition stage produces batches whose sizes sum exactly to the
window length L; every batch except possibly the last has size exactly
ceilDiv L np; no produced batch is empty; and the number of batches equals
ceilDiv L (ceilDiv L np), which is at most np. -/
theorem claim_partitioner_batch_shape (js : List α) (s e np : Nat) (v : Bool)
    (hnp : 1 ≤ np)
    (hL : 1 ≤ min e js.length - min s js.length)
    (ws : List (SpawnedWorker α))
    (hws : runPartition js s e np v = .ok ws) :
    (((ws.map SpawnedWorker.queue).map List.length).sum
        = min e js.length - min s js.length) ∧
    (∀ i, i + 1 < ws.length → ∀ b, (ws.map SpawnedWorker.queue)[i]? = some b →
        b.length = ceilDiv (min e js.length - min s js.length) np) ∧
    (∀ b ∈ ws.map SpawnedWorker.queue, b ≠ []) ∧
    ws.length = ceilDiv (min e js.length - min s js.length)
        (ceilDiv (min e js.length - min s js.length) np) ∧
    ws.length ≤ np := by
  rw [runPartition_eq_ok js s e np v hnp] at hws
  injection hws with h
  subst h
  have hB : 1 ≤ ceilDiv (min e js.length - min s js.length) np :=
    ceilDiv_pos _ _ hL hnp
  have hwlen : ((js.drop (min s js.length)).take
      (min e js.length - min s js.length)).length
      = min e js.length - min s js.length := by
    simp only [List.length_take, List.length_drop]
    omega
  refine ⟨?_, ?_, ?_, ?_, ?_⟩
  · rw [spawnAll_map_queue, ← List.length_flatten, chunksOf_flatten, hwlen]
  · intro i hi b hb
    rw [spawnAll_map_queue] at hb
    rw [spawnAll_length] at hi
    exact chunksOf_getElem?_length _ hB _ i hi b hb
  · rw [spawnAll_map_queue]
    exact chunksOf_ne_nil _ _
  · rw [spawnAll_length, chunksOf_length _ hB, hwlen]
  · rw [spawnAll_length, chunksOf_length _ hB, hwlen]
    exact ceilDiv_le_of_le_mul _ _ _ hB (le_mul_ceilDiv _ _ hnp)

theorem claim_partitioner_batch_shape_witness :
    ((([⟨0, false, [0, 1, 2]⟩, ⟨1, false, [3, 4]⟩] :
        List (SpawnedWorker Nat)).map SpawnedWorker.queue).map List.length).sum
      = min 5 ([0, 1, 2, 3, 4] : List Nat).length - min 0 [0, 1, 2, 3, 4].length :=
  (claim_partitioner_batch_shape ([0, 1, 2, 3, 4] : List Nat) 0 5 2 false
    (by decide) (by decide)
    ([⟨0, false, [0, 1, 2]⟩, ⟨1, false, [3, 4]⟩] : List (SpawnedWorker Nat)) rfl).1

/-- C2: For every record source and clamped window, concatenating the
produced batches in spawn order yields exactly the windowed subsequence of
the source: the records of indices [min s N, min e N), in original order,
nothing else. -/
theorem claim_partition_concat_window (js : List α) (s e np : Nat) (v : Bool)
    (ws : List (SpawnedWorker α))
    (hws : runPartition js s e np v = .ok ws) :
    (ws.map SpawnedWorker.queue).flatten
      = (js.drop (min s js.length)).take (min e js.length - min s js.length) := by
  by_cases hnp : np = 0
  · subst hnp
    simp [runPartition] at hws
  · rw [runPartition_eq_ok js s e np v (by omega)] at hws
    injection hws with h
    subst h
    rw [spawnAll_map_queue, chunksOf_flatten]

theorem claim_partition_concat_window_witness :
    (([⟨0, false, [6, 7]⟩, ⟨1, false, [8]⟩] :
        List (SpawnedWorker Nat)).map SpawnedWorker.queue).flatten
      = (([5, 6, 7, 8, 9] : List Nat).drop (min 1 [5, 6, 7, 8, 9].length)).take
          (min 4 [5, 6, 7, 8, 9].length - min 1 [5, 6, 7, 8, 9].length) :=
  claim_partition_concat_window ([5, 6, 7, 8, 9] : List Nat) 1 4 2 false
    ([⟨0, false, [6, 7]⟩, ⟨1, false, [8]⟩] : List (SpawnedWorker Nat)) rfl

/-- C3: For every requested pair (s, e) with s ≤ e and every record list, the
clamped window (min s N, min e N) satisfies s' ≤ e' ≤ N (s' ≥ 0 holds in ℕ);
a window entirely past the end of the data raises no error and degenerates to
an empty window, over which the partition stage spawns zero workers. -/
theorem claim_clamped_window_bounds (js : List α) (s e np : Nat) (v : Bool)
    (hse : s ≤ e) :
    (clampRange s e js.length).1 ≤ (clampRange s e js.length).2 ∧
    (clampRange s e js.length).2 ≤ js.length ∧
    (js.length ≤ s → (clampRange s e js.length).1 = (clampRange s e js.length).2) ∧
    (js.length ≤ s → 1 ≤ np → runPartition js s e np v = .ok []) := by
  refine ⟨?_, ?_, ?_, ?_⟩
  · simp only [clampRange]
    omega
  · simp only [clampRange]
    omega
  · intro h
    simp only [clampRange]
    omega
  · intro h hnp
    rw [runPartition_eq_ok js s e np v hnp]
    have h1 : min e js.length - min s js.length = 0 := by omega
    rw [h1, List.take_zero, chunksOf_nil]
    rfl

theorem claim_clamped_window_bounds_witness :
    runPartition ([0, 1, 2] : List Nat) 7 9 1 false = .ok [] :=
  (claim_clamped_window_bounds ([0, 1, 2] : List Nat) 7 9 1 false (by decide)).2.2.2
    (by decide) (by decide)

/-- C4 (code bug): with an empty clamped window the total job count is 0, and
the summary line (`main.py` line 178) unconditionally computes
`elapsed_time/num_of_jobs`, raising `ZeroDivisionError` instead of reporting
the average as undefined/zero. -/
theorem claim_summary_divzero_empty_window :
    (clampRange 5 5 5).2 - (clampRange 5 5 5).1 = 0 ∧
    summaryAvg 1 ((clampRange 5 5 5).2 - (clampRange 5 5 5).1)
      = .error "ZeroDivisionError" :=
  ⟨rfl, rfl⟩

/-- C5 (code bug): `Worker.start` never increments `count`, so every progress
line reports `(1/total)`: for a 2-record queue the emitted lines are
`(1/2)` and `(1/2)`, not `(1/2)` and `(2/2)` as the spec claims. -/
theorem claim_worker_progress_stuck :
    (worker_process 0 false
      [⟨"Ada", "1", "@ada", "bio"⟩, ⟨"Bob", "2", "@bob", "bio"⟩]).start =
    [⟨0, 1, 2, "Ada"⟩, ⟨0, 1, 2, "Bob"⟩] := rfl

/-- C6: malformed raw range strings (non-numeric parts, wrong shape such as
"5-", or parsed start > end) are rejected synchronously with a descriptive
validation failure, and the partition stage never runs on them:
any successfully parsed pair satisfies start ≤ end, the three malformed
shapes produce errors, and a parse error propagates so that no batch is
ever produced. -/
theorem claim_range_validation :
    (∀ value s e, index_range value = .ok (s, e) → s ≤ e) ∧
    index_range "5-".toList = .error "Invalid range format. Should be start-end." ∧
    index_range "abc".toList = .error "Invalid range format. Should be start-end." ∧
    index_range "7-3".toList
      = .error "Invalid range: start should be less than or equal to end." ∧
    (∀ value msg (js : List Nat) np vb, index_range value = .error msg →
        parseRangeAndPartition value js np vb = .error msg) := by
  refine ⟨?_, rfl, rfl, rfl, ?_⟩
  · intro value s e h
    unfold index_range at h
    split at h
    · split at h
      · exact absurd h (by simp)
      · rename_i hgt
        simp only [Except.ok.injEq, Prod.mk.injEq] at h
        obtain ⟨rfl, rfl⟩ := h
        omega
    · exact absurd h (by simp)
  · intro value msg js np vb h
    simp [parseRangeAndPartition, h]

theorem claim_range_validation_witness :
    (3 : Int) ≤ 7 ∧
    parseRangeAndPartition "5-".toList ([0] : List Nat) 1 false
      = .error "Invalid range format. Should be start-end." :=
  ⟨claim_range_validation.1 "3-7".toList 3 7 rfl,
   claim_range_validation.2.2.2.2 "5-".toList _ [0] 1 false rfl⟩

/-- C7: partitioning is deterministic: two runs of the partition stage over
the same record sequence with the same requested window and worker count
produce identical lists of batches, in content and order. -/
theorem claim_partition_deterministic (js js' : List α) (s e np : Nat) (v : Bool)
    (h : js = js') :
    runPartition js s e np v = runPartition js' s e np v := by
  rw [h]

theorem claim_partition_deterministic_witness :
    runPartition ([0, 1, 2] : List Nat) 0 3 2 false
      = runPartition [0, 1, 2] 0 3 2 false :=
  claim_partition_deterministic ([0, 1, 2] : List Nat) [0, 1, 2] 0 3 2 false rfl

/-- C8: worker ordinals are assigned densely from 0 in spawn order (the k-th
spawned worker receives ordinal k), and the display color handed to the
worker is the palette entry at index ordinal mod palette size, with a
14-entry palette. -/
theorem claim_worker_ordinals_colors (js : List α) (s e np : Nat) (v : Bool)
    (ws : List (SpawnedWorker α))
    (hws : runPartition js s e np v = .ok ws)
    (i : Nat) (hi : i < ws.length) (vb : Bool) (q : List Journalist) :
    (ws.get ⟨i, hi⟩).process_id = i ∧
    COLORS.length = 14 ∧
    (worker_process (ws.get ⟨i, hi⟩).process_id vb q).printclr
      = COLORS.getD (i % 14) "" := by
  have hpid : (ws.get ⟨i, hi⟩).process_id = i := by
    by_cases hnp : np = 0
    · subst hnp
      simp [runPartition] at hws
    · rw [runPartition_eq_ok js s e np v (by omega)] at hws
      injection hws with h
      subst h
      simpa using spawnAll_get_process_id v _ 0 i hi
  refine ⟨hpid, rfl, ?_⟩
  rw [hpid]
  rfl

theorem claim_worker_ordinals_colors_witness :
    (([⟨0, false, [0, 1]⟩, ⟨1, false, [2, 3]⟩] :
        List (SpawnedWorker Nat)).get ⟨1, by decide⟩).process_id = 1 ∧
    COLORS.length = 14 ∧
    (worker_process (([⟨0, false, [0, 1]⟩, ⟨1, false, [2, 3]⟩] :
        List (SpawnedWorker Nat)).get ⟨1, by decide⟩).process_id false []).printclr
      = COLORS.getD (1 % 14) "" :=
  claim_worker_ordinals_colors ([0, 1, 2, 3] : List Nat) 0 4 2 false
    ([⟨0, false, [0, 1]⟩, ⟨1, false, [2, 3]⟩] : List (SpawnedWorker Nat)) rfl
    1 (by decide) false []

/-- C9: the batch-size computation `ceil(num_of_jobs / args.np)` divides by
the requested process count with no validation; for np = 0 it raises
ZeroDivisionError for every record list and every window (the empty window
included), before any worker is spawned. -/
theorem claim_np_zero_zerodivision (js : List α) (s e : Nat) (v : Bool) :
    runPartition js s e 0 v = .error "ZeroDivisionError" := rfl

/-- C10: when `--range` is omitted the raw window defaults to (0, 9999999),
so the records processed are exactly `js.take 9999999` — `min 9999999 N`
records — and records at index 9999999 and beyond are silently excluded. -/
theorem claim_default_range_truncates (js : List α) (np : Nat) (v : Bool)
    (ws : List (SpawnedWorker α))
    (hws : runPartition js RANGE_DEFAULT.1 RANGE_DEFAULT.2 np v = .ok ws) :
    (ws.map SpawnedWorker.queue).flatten = js.take 9999999 ∧
    ((ws.map SpawnedWorker.queue).flatten).length = min 9999999 js.length := by
  by_cases hnp : np = 0
  · subst hnp
    simp [runPartition] at hws
  · rw [runPartition_eq_ok _ _ _ _ _ (by omega)] at hws
    injection hws with h
    subst h
    rw [spawnAll_map_queue, chunksOf_flatten]
    have h1 : min RANGE_DEFAULT.1 js.length = 0 := by simp [RANGE_DEFAULT]
    have h2 : RANGE_DEFAULT.2 = 9999999 := rfl
    rw [h1, h2, List.drop_zero, Nat.sub_zero]
    constructor
    · rw [List.take_eq_take]
      omega
    · simp only [List.length_take]
      omega

theorem claim_default_range_truncates_witness :
    (([⟨0, false, [10, 20, 30]⟩] : List (SpawnedWorker Nat)).map
        SpawnedWorker.queue).flatten = ([10, 20, 30] : List Nat).take 9999999 ∧
    ((([⟨0, false, [10, 20, 30]⟩] : List (SpawnedWorker Nat)).map
        SpawnedWorker.queue).flatten).length
      = min 9999999 ([10, 20, 30] : List Nat).length :=
  claim_default_range_truncates ([10, 20, 30] : List Nat) 1 false
    ([⟨0, false, [10, 20, 30]⟩] : List (SpawnedWorker Nat)) rfl

end XBioScraper
